import Mathlib

/-!
Verification of the git-draft draft-lifecycle engine.

This file gives a shallow embedding, in Lean 4, of the core of the
git-draft repository: the VCS process gateway (src/git_draft/git.py),
the draft/folio state machine (src/git_draft/drafter.py), and the
diff/merge engine (the _Change/_Delta classes of drafter.py).  States
of a git repository are modelled explicitly (commits, branches, HEAD,
index, working tree), and each Python function of the core is
translated to a pure Lean function on that state.  External effects
(the git binary's subprocess results, the bot/agent) enter as explicit
inputs.  Machine integers do not occur in the modelled code; shas are
modelled as abstract natural identifiers.

The mutation surface (toolbox.py / worktrees.py) and the SQLite store
(store.py) are not present in the source tree (only their tests and
callers are); the definitions that depend on them are modelled from the
specification and are marked as such in their doc comments.
-/

/-! ## Association lists

Finite maps used for trees, branch tables and store tables.  A map is a
list of key/value pairs; `alSet` and `alErase` keep at most one binding
per key visible to `alGet`. -/

/-- Lookup in an association list (first binding wins). -/
def alGet {α β : Type} [DecidableEq α] : List (α × β) → α → Option β
  | [], _ => none
  | (k', v) :: rest, k => if k' = k then some v else alGet rest k

/-- Remove every binding of a key. -/
def alErase {α β : Type} [DecidableEq α] : List (α × β) → α → List (α × β)
  | [], _ => []
  | (k', v) :: rest, k =>
    if k' = k then alErase rest k else (k', v) :: alErase rest k

/-- Bind a key to a value, shadowing previous bindings. -/
def alSet {α β : Type} [DecidableEq α] (l : List (α × β)) (k : α) (v : β) :
    List (α × β) :=
  (k, v) :: alErase l k

/-! ## Decimal rendering and parsing of folio ids

Embeds Python's `str` on a nonnegative integer (decimal digits) and
`int` on a digit string, as used by `_Branch` in drafter.py. -/

/-- One decimal digit as a character (`str` rendering of a digit). -/
def digitChar : Nat → Char
  | 0 => '0'
  | 1 => '1'
  | 2 => '2'
  | 3 => '3'
  | 4 => '4'
  | 5 => '5'
  | 6 => '6'
  | 7 => '7'
  | 8 => '8'
  | _ => '9'

/-- Fuel-driven decimal rendering; fuel larger than the value suffices. -/
def natDigitsGo : Nat → Nat → List Char
  | 0, _ => []
  | fuel + 1, m =>
    if m < 10 then [digitChar m]
    else natDigitsGo fuel (m / 10) ++ [digitChar (m % 10)]

/-- Decimal digits of a natural number, most significant first:
the embedding of Python's `str(n)` for nonnegative `n`. -/
def natDigits (n : Nat) : List Char := natDigitsGo (n + 1) n

/-- Value of a decimal digit string: the embedding of Python's `int`
applied to a string of ASCII digits. -/
def digitsToNat (l : List Char) : Nat :=
  l.foldl (fun a c => 10 * a + (c.toNat - 48)) 0

/-! ## Draft branch naming (drafter.py, class _Branch)

A draft branch name is the reserved namespace `drafts/` followed by the
decimal folio id (`_Branch.name`); `_Branch.active` recognizes exactly
the branch names fully matching the pattern `drafts/(\d+)` and recovers
the folio id with `int` (drafter.py lines 63-89). -/

/-- Branch name for a folio id (`_Branch.name`). -/
def branchName (folioId : Nat) : String :=
  "drafts/" ++ String.mk (natDigits folioId)

/-- Does a string fully match the pattern `drafts/(\d+)`? -/
def matchesDraftPattern (s : String) : Prop :=
  s.data.take 7 = "drafts/".data ∧
    s.data.drop 7 ≠ [] ∧ ∀ c ∈ s.data.drop 7, c.isDigit = true

instance (s : String) : Decidable (matchesDraftPattern s) := by
  unfold matchesDraftPattern
  infer_instance

/-- Parse a branch name back to a folio id: the embedding of the
fullmatch against `drafts/(\d+)` followed by `int(match[1])` performed
by `_Branch.active`. -/
def branchParse (s : String) : Option Nat :=
  if matchesDraftPattern s then some (digitsToNat (s.data.drop 7)) else none

/-! ## VCS process gateway (git.py, GitCall.sync)

The subprocess itself is external: its observed exit code, stdout and
stderr are inputs of the embedding.  `GitCall.sync` checks the exit
code against the accepted set and trims trailing whitespace from the
captured streams (git.py lines 116-141). -/

deriving instance DecidableEq for Except

/-- Trailing-whitespace trim: the embedding of Python's `str.rstrip()`
(whitespace being space, tab, carriage return and newline). -/
def rstrip (s : String) : String :=
  String.mk (s.data.reverse.dropWhile Char.isWhitespace).reverse

/-- Result record of a git command (git.py, class GitCall). -/
structure GitCallResult where
  code : Int
  stdout : String
  stderr : String
deriving DecidableEq

/-- Error raised on an unexpected exit code (git.py, class GitError).
Its only payload is the formatted message string. -/
structure GitErrorExn where
  message : String
deriving DecidableEq

/-- Embedding of `GitCall.sync`: `args` is the command line (used only
to spawn the external process, which is modelled by the `code`,
`stdout` and `stderr` inputs).  Mirrors
`if expect_codes and code not in expect_codes: raise GitError(...)`
followed by `cls(code, stdout.rstrip(), stderr.rstrip())`. -/
def gitCallSync (_args : List String) (expectCodes : List Int)
    (code : Int) (stdout stderr : String) :
    Except GitErrorExn GitCallResult :=
  if expectCodes ≠ [] ∧ code ∉ expectCodes then
    .error ⟨"Git command failed with code " ++ toString code ++ ": " ++ stderr⟩
  else
    .ok ⟨code, rstrip stdout, rstrip stderr⟩

/-! ## Trees and diffs

A tree is a finite map from paths to file contents.  `changedKeys`
computes the set of paths at which two trees differ; it is the
changed-file set of a diff between the two trees. -/

/-- File trees: path to contents. -/
abbrev GitTree := List (String × String)

/-- Paths at which two trees differ. -/
def changedKeys (t₁ t₂ : GitTree) : List String :=
  ((t₁.map Prod.fst ++ t₂.map Prod.fst).dedup).filter
    (fun k => decide (alGet t₁ k ≠ alGet t₂ k))

/-- Textual patch between two trees, as produced by
`git diff-tree --patch`: one hunk per changed path.  Only the property
that matters to the drafter is modelled: the patch text is empty
exactly when no path changed. -/
def renderPatch (t₁ t₂ : GitTree) : String :=
  (changedKeys t₁ t₂).foldl (fun acc k => acc ++ "--- " ++ k ++ "\n") ""

/-! ## Repository state (the Repository Handle's view of git)

Commits, branches, HEAD, index and working tree of one repository.
Commit ids are abstract naturals drawn from a fresh-id counter.  The
operations below embed the specific git commands invoked by git.py's
`Repo` methods and by drafter.py through `repo.git(...)`. -/

/-- Data of one commit. -/
structure CommitData where
  message : String
  parent : Option Nat
  tree : GitTree
deriving DecidableEq

/-- Current HEAD: on a branch, or detached at a commit. -/
inductive HeadState where
  | branch (name : String)
  | detached (sha : Nat)
deriving DecidableEq

/-- State of a git repository. -/
structure RepoState where
  commits : List (Nat × CommitData)
  branches : List (String × Nat)
  head : HeadState
  index : GitTree
  worktree : GitTree
  draftRefs : List (String × Nat)
  nextSha : Nat
deriving DecidableEq

/-- Failure of an underlying git command, or a drafter-level error
(drafter.py raises ValueError / RuntimeError / ConflictError /
NotImplementedError; the spec's error taxonomy names them
PendingChangesError, EmptyPromptError, NotOnDraftBranchError,
ConflictError and so on). -/
inductive DraftError where
  | notImplementedTimeout
  | pendingChanges
  | noActiveBranch
  | emptyPrompt
  | notOnDraftBranch
  | unrecognizedDraftBranch
  | conflict
  | applyFailed
  | gitFailure
deriving DecidableEq

/-- Embedding of `Repo.active_branch` (`git branch --show-current`:
empty when HEAD is detached). -/
def activeBranch (st : RepoState) : Option String :=
  match st.head with
  | .branch name => some name
  | .detached _ => none

/-- Commit id HEAD resolves to, if any. -/
def headSha (st : RepoState) : Option Nat :=
  match st.head with
  | .branch name => alGet st.branches name
  | .detached sha => some sha

/-- Tree of a commit, empty if the id is unknown. -/
def shaTreeD (st : RepoState) (sha : Nat) : GitTree :=
  ((alGet st.commits sha).map CommitData.tree).getD []

/-- Tree of the commit at HEAD (empty before the first commit). -/
def headTree (st : RepoState) : GitTree :=
  ((headSha st).map (shaTreeD st)).getD []

/-- Embedding of `Repo.has_staged_changes`
(`git diff --quiet --staged`: does the index differ from HEAD?). -/
def hasStagedChanges (st : RepoState) : Bool :=
  !(changedKeys st.index (headTree st)).isEmpty

/-- Embedding of `git add --all`: the index becomes a snapshot of the
working tree (stages modifications, additions and deletions). -/
def gitAddAll (st : RepoState) : RepoState :=
  { st with index := st.worktree }

/-- Embedding of plain `git reset` (mixed reset to HEAD): the index is
reset to the HEAD tree, the working tree is untouched. -/
def gitResetMixedHead (st : RepoState) : RepoState :=
  { st with index := headTree st }

/-- Embedding of `Repo.create_commit` (`git commit --allow-empty`):
commits the index with the current HEAD as parent, advancing the
checked-out branch (or the detached HEAD). -/
def createCommit (st : RepoState) (message : String) : RepoState × Nat :=
  let sha := st.nextSha
  let cd : CommitData := ⟨message, headSha st, st.index⟩
  let st' :=
    { st with
      commits := (sha, cd) :: st.commits
      nextSha := sha + 1
      head := match st.head with
        | .branch name => .branch name
        | .detached _ => .detached sha
      branches := match st.head with
        | .branch name => alSet st.branches name sha
        | .detached _ => st.branches }
  (st', sha)

/-- Embedding of `git checkout --detach`: HEAD becomes detached at the
current commit. -/
def checkoutDetach (st : RepoState) : Except DraftError RepoState :=
  match headSha st with
  | some sha => .ok { st with head := .detached sha }
  | none => .error .gitFailure

/-- Embedding of `git reset -N <branch>` as used by finalize: moves
HEAD (the detached HEAD, or the checked-out branch ref) to the target
branch's commit and resets the index to that commit's tree, keeping the
working tree. -/
def resetKeepWorktree (st : RepoState) (target : String) :
    Except DraftError RepoState :=
  match alGet st.branches target with
  | none => .error .gitFailure
  | some sha =>
    let st₁ := { st with index := shaTreeD st sha }
    match st.head with
    | .detached _ => .ok { st₁ with head := .detached sha }
    | .branch name => .ok { st₁ with branches := alSet st.branches name sha }

/-- One path's entry after `git checkout <branch>` carries local
modifications over: a path whose current content equals the current
HEAD version is switched to the target version, a locally modified path
keeps its local content. -/
def carryEntry (cur tgt : GitTree) (local_ : GitTree) (k : String) :
    Option String :=
  if alGet local_ k = alGet cur k then alGet tgt k else alGet local_ k

/-- Rebuild a tree from a key set and a per-key content choice. -/
def buildTree (keys : List String) (f : String → Option String) : GitTree :=
  keys.filterMap (fun k => (f k).map (fun c => (k, c)))

/-- Embedding of `git checkout <branch>`: HEAD moves to the branch, and
index and working tree are switched to the branch's tree except for
locally modified entries, which are carried over.  (The refusal case
for conflicting local modifications is not modelled; the drafter only
checks out a branch whose commit is already at HEAD.) -/
def checkoutBranch (st : RepoState) (name : String) :
    Except DraftError RepoState :=
  match alGet st.branches name with
  | none => .error .gitFailure
  | some sha =>
    let cur := headTree st
    let tgt := shaTreeD st sha
    let keys := (cur.map Prod.fst ++ tgt.map Prod.fst ++
      st.index.map Prod.fst ++ st.worktree.map Prod.fst).dedup
    .ok { st with
      head := .branch name
      index := buildTree keys (carryEntry cur tgt st.index)
      worktree := buildTree keys (carryEntry cur tgt st.worktree) }

/-- Embedding of `Repo.checkout_new_branch` (`git checkout -b <name>`):
creates the branch at the current commit and checks it out.  Fails if
the branch already exists. -/
def checkoutNewBranch (st : RepoState) (name : String) :
    Except DraftError RepoState :=
  match alGet st.branches name with
  | some _ => .error .gitFailure
  | none =>
    match headSha st with
    | none => .error .gitFailure
    | some sha =>
      .ok { st with
        branches := alSet st.branches name sha
        head := .branch name }

/-- Embedding of `git branch -D <name>`: force-deletes the branch;
fails if it is the checked-out branch or does not exist. -/
def deleteBranchForce (st : RepoState) (name : String) :
    Except DraftError RepoState :=
  if st.head = .branch name then .error .gitFailure
  else
    match alGet st.branches name with
    | none => .error .gitFailure
    | some _ => .ok { st with branches := alErase st.branches name }

/-- Embedding of `git update-ref <ref> <sha>` as used by
`_Change.add_ref`. -/
def updateRef (st : RepoState) (ref : String) (sha : Nat) : RepoState :=
  { st with draftRefs := alSet st.draftRefs ref sha }

/-! ## Prompt titles (drafter.py, _default_title)

`_default_title` calls `textwrap.shorten(prompt, break_on_hyphens=False,
width=72)`: whitespace is collapsed (the prompt is split into
whitespace-free words and re-joined with single spaces), the result is
returned unchanged if it fits the width, and otherwise a maximal prefix
of the words fitting together with the placeholder " [...]" is kept
(degenerating to "[...]" when not even the first word fits). -/

/-- Split a character list into maximal whitespace-free words: the
embedding of Python's `str.split()` with no argument.  Fuel-driven; one
word consumes at least one character, so `length + 1` fuel suffices. -/
def wordsGo : Nat → List Char → List (List Char)
  | 0, _ => []
  | fuel + 1, l =>
    match l.dropWhile Char.isWhitespace with
    | [] => []
    | c :: cs =>
      (c :: cs.takeWhile (fun c => !c.isWhitespace)) ::
        wordsGo fuel (cs.dropWhile (fun c => !c.isWhitespace))

/-- Words of a string. -/
def wordsOf (s : String) : List String :=
  (wordsGo (s.data.length + 1) s.data).map String.mk

/-- Join of the non-first words, each preceded by one space. -/
def joinTail : List String → String
  | [] => ""
  | w :: ws => " " ++ w ++ joinTail ws

/-- Single-space join: the embedding of `" ".join(words)`. -/
def joinWords : List String → String
  | [] => ""
  | w :: ws => w ++ joinTail ws

/-- Maximal words keepable within a remaining budget, counting one
space before each word. -/
def greedyTail : Nat → List String → List String
  | _, [] => []
  | budget, w :: ws =>
    if w.length + 1 ≤ budget then
      w :: greedyTail (budget - (w.length + 1)) ws
    else []

/-- Maximal word prefix whose single-space join fits a budget. -/
def greedyWords : Nat → List String → List String
  | _, [] => []
  | budget, w :: ws =>
    if w.length ≤ budget then w :: greedyTail (budget - w.length) ws
    else []

/-- Embedding of `textwrap.shorten(s, width, break_on_hyphens=False)`. -/
def textwrapShorten (width : Nat) (s : String) : String :=
  let ws := wordsOf s
  let joined := joinWords ws
  if joined.length ≤ width then joined
  else
    let kept := greedyWords (width - (" [...]" : String).length) ws
    if kept.isEmpty then "[...]"
    else joinWords kept ++ " [...]"

/-- Embedding of `_default_title` (drafter.py lines 428-429). -/
def defaultTitle (prompt : String) : String := textwrapShorten 72 prompt

/-! ## History store (store.py is absent from the source tree)

The SQLite-backed store is consumed by drafter.py through the History
Recorder interface.  Modelled from the spec: `addFolio` assigns
monotonic integer folio ids and records origin branch and origin
commit; `addPrompt` assigns the next sequence number per folio;
`get-folio-by-id` returns the recorded origin branch and commit.  Rows
not consulted by the claims (actions, operations) are elided. -/

/-- State of the history store. -/
structure StoreState where
  folios : List (Nat × (String × Nat))
  nextFolioId : Nat
  prompts : List (Nat × Nat × String)
deriving DecidableEq

/-- Modelled from the spec: the History Recorder's addFolio
(`sql("add-folio")`), returning a fresh monotonic folio id. -/
def addFolio (s : StoreState) (originBranch : String) (originSha : Nat) :
    StoreState × Nat :=
  let folioId := s.nextFolioId
  ({ s with
      folios := alSet s.folios folioId (originBranch, originSha)
      nextFolioId := folioId + 1 },
    folioId)

/-- Modelled from the spec: the History Recorder's addPrompt
(`sql("add-prompt")`), returning the next sequence number for the
folio. -/
def addPrompt (s : StoreState) (folioId : Nat) (contents : String) :
    StoreState × Nat :=
  let seqno := 1 + (s.prompts.filter (fun r => r.1 = folioId)).length
  ({ s with prompts := (folioId, seqno, contents) :: s.prompts }, seqno)

/-- Leading-and-trailing-whitespace strip: the embedding of Python's
`str.strip()`, used by the empty-prompt check. -/
def pyStrip (s : String) : String :=
  String.mk
    (((s.data.dropWhile Char.isWhitespace).reverse.dropWhile
      Char.isWhitespace).reverse)

/-- Combined drafter state: repository plus history store. -/
structure DrafterState where
  repo : RepoState
  store : StoreState
deriving DecidableEq

/-! ## Drafter operations (drafter.py, class Drafter)

The Bot is external; its effect on the mutation surface is an explicit
list of write/delete operations, and its returned ActionSummary title
is an explicit input. -/

/-- One mutation the Bot performs through the Mutation Surface. -/
inductive BotOp where
  | write (path contents : String)
  | delete (path : String)
deriving DecidableEq

/-- Modelled from the spec: the index-only staging toolbox
(toolbox.py is absent from the source tree).  `write_file` updates the
staging entry for the path; `delete_file` removes it, treating an
absent path as a no-op. -/
def applyBotOp (t : GitTree) (op : BotOp) : GitTree :=
  match op with
  | .write p c => alSet t p c
  | .delete p => if (alGet t p).isSome then alErase t p else t

/-- Effect of a whole Bot run on the staging area. -/
def applyBotOps (t : GitTree) (ops : List BotOp) : GitTree :=
  ops.foldl applyBotOp t

/-- Path a single Bot mutation touches. -/
def botOpPath : BotOp → String
  | .write p _ => p
  | .delete p => p

/-- Paths a Bot run writes or deletes. -/
def botPaths (ops : List BotOp) : List String :=
  ops.map botOpPath

/-- Embedding of `Drafter._stage_changes`: `git add --all`, then a
`draft! sync` commit if anything is staged (drafter.py lines 283-287). -/
def stageChanges (st : RepoState) : RepoState × Option Nat :=
  let st₁ := gitAddAll st
  if hasStagedChanges st₁ then
    let (st₂, sha) := createCommit st₁ "draft! sync"
    (st₂, some sha)
  else (st₁, none)

/-- Embedding of `_Branch.active(repo)`: the folio id encoded in the
checked-out branch name, if it is a draft branch. -/
def branchActive (st : RepoState) : Option Nat :=
  (activeBranch st).bind branchParse

/-- Effective commit title of `_generate_change`: the bot-supplied
title if truthy, otherwise `_default_title(prompt)`. -/
def effectiveTitle (botTitle : Option String) (prompt : String) : String :=
  match botTitle with
  | some t => if t = "" then defaultTitle prompt else t
  | none => defaultTitle prompt

/-- Embedding of `Drafter._generate_change` (drafter.py lines 207-234):
apply the Bot's mutations to the staging area, then commit the index
with message `draft! <title>\n\n<prompt>`.  Returns the new state and
the commit id. -/
def generateChange (st : RepoState) (ops : List BotOp)
    (botTitle : Option String) (prompt : String) : RepoState × Nat :=
  let st₁ := { st with index := applyBotOps st.index ops }
  createCommit st₁
    ("draft! " ++ effectiveTitle botTitle prompt ++ "\n\n" ++ prompt)

/-- Embedding of `_draft_ref`. -/
def draftRefName (folioId seqno : Nat) : String :=
  "refs/drafts/" ++ String.mk (natDigits folioId) ++ "/" ++
    String.mk (natDigits seqno)

/-- Embedding of `_Change.delta` (drafter.py lines 342-344):
`git diff-tree --patch <commit>` against the commit's parent (empty for
a root commit, since `--root` is not passed), wrapped in a `_Delta`
only if the patch text is non-empty. -/
def changeDelta (st : RepoState) (sha : Nat) :
    Except DraftError (Option String) :=
  match alGet st.commits sha with
  | none => .error .gitFailure
  | some cd =>
    let diff :=
      match cd.parent with
      | none => ""
      | some p => renderPatch (shaTreeD st p) cd.tree
    .ok (if diff = "" then none else some diff)

/-- Substring test: the embedding of Python's `in` on strings. -/
def strContains (s pat : String) : Bool :=
  decide (List.IsInfix pat.data s.data)

/-- Observed outcome of the external `git apply --3way` subprocess:
exit code, stderr, and the tree the apply left in the working tree and
index (applied hunks, plus conflict markers where the three-way merge
could not resolve). -/
structure ApplyOutcome where
  code : Int
  stderr : String
  tree : GitTree
deriving DecidableEq

/-- Embedding of `_Delta.apply` (drafter.py lines 354-365):
`git add --all`, run `git apply --3way` with no accepted-exit-code
check, raise ConflictError if stderr reports residual conflicts, raise
the generic (NotImplementedError) failure on any other non-zero exit
code, and unstage (`git reset`) on success.  The returned state is the
repository as the operation leaves it, error or not: nothing is rolled
back on failure. -/
def deltaApply (st : RepoState) (out : ApplyOutcome) :
    RepoState × Option DraftError :=
  let st₁ := gitAddAll st
  let st₂ := { st₁ with worktree := out.tree, index := out.tree }
  if strContains out.stderr "with conflicts" then (st₂, some .conflict)
  else if out.code ≠ 0 then (st₂, some .applyFailed)
  else (gitResetMixedHead st₂, none)

/-- Embedding of `Drafter._create_branch` (drafter.py lines 261-281):
record the origin branch and commit in a fresh folio row, detach HEAD,
sync-commit any dirty state, and create and check out the draft
branch. -/
def createBranchD (st : DrafterState) :
    Except DraftError (DrafterState × Nat) :=
  match activeBranch st.repo with
  | none => .error .noActiveBranch
  | some originBranch =>
    match headSha st.repo with
    | none => .error .gitFailure
    | some originSha =>
      let (store', folioId) := addFolio st.store originBranch originSha
      match checkoutDetach st.repo with
      | .error e => .error e
      | .ok repo₁ =>
        let (repo₂, _) := stageChanges repo₁
        match checkoutNewBranch repo₂ (branchName folioId) with
        | .error e => .error e
        | .ok repo₃ => .ok (⟨repo₃, store'⟩, folioId)

/-- Embedding of `Drafter.finalize_folio` (drafter.py lines 236-259):
require a draft branch, sync-commit pending changes, look up the
folio's recorded origin branch and commit (the recorded origin commit
is bound but never compared against anything, exactly as in the
source), then detach, reset to the origin branch keeping the working
tree, check out the origin branch and force-delete the draft branch. -/
def finalizeFolio (st : DrafterState) :
    Except DraftError (DrafterState × Nat) :=
  match branchActive st.repo with
  | none => .error .notOnDraftBranch
  | some folioId =>
    let repo₁ := (stageChanges st.repo).1
    match alGet st.store.folios folioId with
    | none => .error .unrecognizedDraftBranch
    | some (originBranch, _originSha) =>
      match checkoutDetach repo₁ with
      | .error e => .error e
      | .ok repo₂ =>
        match resetKeepWorktree repo₂ originBranch with
        | .error e => .error e
        | .ok repo₃ =>
          match checkoutBranch repo₃ originBranch with
          | .error e => .error e
          | .ok repo₄ =>
            match deleteBranchForce repo₄ (branchName folioId) with
            | .error e => .error e
            | .ok repo₅ => .ok (⟨repo₅, st.store⟩, folioId)

/-- Accept policy (drafter.py, enum Accept). -/
inductive Accept where
  | manual
  | checkout
  | finalize
deriving DecidableEq

/-- Numeric enum value of an accept policy. -/
def Accept.val : Accept → Nat
  | .manual => 0
  | .checkout => 1
  | .finalize => 2

/-- Embedding of `Drafter.generate_draft` (drafter.py lines 106-189)
for a plain string prompt (prompt templating is an excluded external
collaborator).  The Bot is the pair of its mutation list and returned
title; `applyOut` is the observed outcome of `git apply --3way` should
the accept policy reach it.  History rows for actions and operations
are elided.  Returns the final state with the folio id and prompt
sequence number of the new draft. -/
def generateDraft (st : DrafterState) (prompt : String)
    (ops : List BotOp) (botTitle : Option String) (accept : Accept)
    (promptTransform : Option (String → String)) (reset : Bool)
    (timeout : Option Rat) (applyOut : ApplyOutcome) :
    Except DraftError (DrafterState × Nat × Nat) :=
  if timeout.isSome then .error .notImplementedTimeout
  else
    let step₁ : Except DraftError DrafterState :=
      if hasStagedChanges st.repo then
        if !reset then .error .pendingChanges
        else .ok { st with repo := gitResetMixedHead st.repo }
      else .ok st
    match step₁ with
    | .error e => .error e
    | .ok st₁ =>
      let step₂ : Except DraftError (DrafterState × Nat) :=
        match branchActive st₁.repo with
        | some folioId =>
          let (r, _) := stageChanges st₁.repo
          .ok ({ st₁ with repo := r }, folioId)
        | none => createBranchD st₁
      match step₂ with
      | .error e => .error e
      | .ok (st₂, folioId) =>
        let contents := (promptTransform.getD id) prompt
        if pyStrip contents = "" then .error .emptyPrompt
        else
          let (store₃, seqno) := addPrompt st₂.store folioId contents
          let (repo₄, commitSha) :=
            generateChange st₂.repo ops botTitle contents
          let repo₅ := updateRef repo₄ (draftRefName folioId seqno) commitSha
          let st₅ : DrafterState := ⟨repo₅, store₃⟩
          match changeDelta st₅.repo commitSha with
          | .error e => .error e
          | .ok deltaOpt =>
            let step₆ : Except DraftError DrafterState :=
              match deltaOpt with
              | some _ =>
                if Accept.checkout.val ≤ accept.val then
                  match deltaApply st₅.repo applyOut with
                  | (_, some e) => .error e
                  | (r, none) => .ok { st₅ with repo := r }
                else .ok st₅
              | none => .ok st₅
            match step₆ with
            | .error e => .error e
            | .ok st₆ =>
              if Accept.finalize.val ≤ accept.val then
                match finalizeFolio st₆ with
                | .error e => .error e
                | .ok (st₇, _) => .ok (st₇, folioId, seqno)
              else .ok (st₆, folioId, seqno)

/-! ## Mutation-surface deletes (both strategies)

toolbox.py and worktrees.py are absent from the source tree; the two
strategies' file operations are modelled from the spec. -/

/-- Error raised by mutation-surface reads of absent paths
(FileNotFoundError in the spec's index-only strategy). -/
inductive ToolboxError where
  | fileNotFound
deriving DecidableEq

/-- Modelled from the spec: index-only strategy `read_file` reads the
staged blob, failing with FileNotFoundError if the path is not
staged. -/
def stagingReadFile (index : GitTree) (p : String) :
    Except ToolboxError String :=
  match alGet index p with
  | some c => .ok c
  | none => .error .fileNotFound

/-- Modelled from the spec: index-only strategy `delete_file` updates
the staging area, treating deletion of a path that is not currently
staged as a no-op rather than an error. -/
def stagingDeleteFile (index : GitTree) (p : String) :
    Except ToolboxError GitTree :=
  if (alGet index p).isSome then .ok (alErase index p) else .ok index

/-- State of the materialized-worktree strategy: the in-memory overlay
keyed by path, and whether a scoped editing session is open. -/
structure WorktreeState where
  overlay : GitTree
  sessionOpen : Bool
deriving DecidableEq

/-- Modelled from the spec: materialized-worktree strategy
`delete_file` operates on the overlay, treating deletion of a path not
currently present as a no-op rather than an error. -/
def worktreeDeleteFile (w : WorktreeState) (p : String) :
    Except ToolboxError WorktreeState :=
  if (alGet w.overlay p).isSome then
    .ok { w with overlay := alErase w.overlay p }
  else .ok w

/-- First line of a commit message (up to the first newline). -/
def firstLine (s : String) : String :=
  String.mk (s.data.takeWhile (fun c => c != '\n'))

/-- Body of a commit message: everything after the first newline and
the following blank-line separator. -/
def messageBody (s : String) : String :=
  String.mk ((s.data.dropWhile (fun c => c != '\n')).drop 2)

theorem alGet_alErase {α β : Type} [DecidableEq α]
    (l : List (α × β)) (k q : α) :
    alGet (alErase l k) q = if k = q then none else alGet l q := by
  induction l with
  | nil => simp [alErase, alGet]
  | cons e rest ih =>
    obtain ⟨k', v⟩ := e
    by_cases hk : k' = k
    · rw [alErase, if_pos hk, ih]
      by_cases hq : k = q
      · rw [if_pos hq, if_pos hq]
      · have hk'q : ¬ k' = q := fun h => hq ((hk.symm.trans h))
        rw [if_neg hq, if_neg hq, alGet, if_neg hk'q]
    · by_cases hq : k' = q
      · have hkq : ¬ k = q := fun h => hk (hq.trans h.symm)
        rw [alErase, if_neg hk, alGet, if_pos hq, if_neg hkq, alGet, if_pos hq]
      · rw [alErase, if_neg hk, alGet, if_neg hq, ih, alGet, if_neg hq]

theorem alGet_alSet {α β : Type} [DecidableEq α]
    (l : List (α × β)) (k q : α) (v : β) :
    alGet (alSet l k v) q = if k = q then some v else alGet l q := by
  by_cases h : k = q
  · subst h; simp [alSet, alGet]
  · simp [alSet, alGet, h, alGet_alErase]

theorem alGet_mem_keys {α β : Type} [DecidableEq α]
    (l : List (α × β)) (k : α) (h : alGet l k ≠ none) :
    k ∈ l.map Prod.fst := by
  induction l with
  | nil => simp [alGet] at h
  | cons e rest ih =>
    obtain ⟨k', v⟩ := e
    by_cases hk : k' = k
    · subst hk; simp
    · simp [alGet, hk] at h
      simpa using Or.inr (ih h)

theorem digitChar_isDigit (d : Nat) (h : d < 10) :
    (digitChar d).isDigit = true := by
  interval_cases d <;> decide

theorem digitChar_val (d : Nat) (h : d < 10) :
    (digitChar d).toNat - 48 = d := by
  interval_cases d <;> decide

theorem digitsToNat_append_digit (l : List Char) (c : Char) :
    digitsToNat (l ++ [c]) = 10 * digitsToNat l + (c.toNat - 48) := by
  simp [digitsToNat, List.foldl_append]

theorem digitsToNat_natDigitsGo (fuel m : Nat) (h : m < fuel) :
    digitsToNat (natDigitsGo fuel m) = m := by
  induction fuel generalizing m with
  | zero => omega
  | succ fuel ih =>
    by_cases hm : m < 10
    · simp [natDigitsGo, hm, digitsToNat, digitChar_val m hm]
    · have hdiv : m / 10 < m := Nat.div_lt_self (by omega) (by omega)
      have hfuel : m / 10 < fuel := by omega
      simp [natDigitsGo, hm, digitsToNat_append_digit, ih _ hfuel,
        digitChar_val (m % 10) (Nat.mod_lt m (by omega))]
      omega

theorem digitsToNat_natDigits (n : Nat) : digitsToNat (natDigits n) = n :=
  digitsToNat_natDigitsGo (n + 1) n (Nat.lt_succ_self n)

theorem natDigitsGo_all_digits (fuel m : Nat) :
    ∀ c ∈ natDigitsGo fuel m, c.isDigit = true := by
  induction fuel generalizing m with
  | zero => simp [natDigitsGo]
  | succ fuel ih =>
    by_cases hm : m < 10
    · simp [natDigitsGo, hm, digitChar_isDigit m hm]
    · intro c hc
      simp [natDigitsGo, hm] at hc
      rcases hc with hc | hc
      · exact ih _ c hc
      · subst hc
        exact digitChar_isDigit (m % 10) (Nat.mod_lt m (by omega))

theorem natDigitsGo_ne_nil (fuel m : Nat) (h : 0 < fuel) :
    natDigitsGo fuel m ≠ [] := by
  cases fuel with
  | zero => omega
  | succ fuel =>
    by_cases hm : m < 10 <;> simp [natDigitsGo, hm]

theorem branchName_data (folioId : Nat) :
    (branchName folioId).data = "drafts/".data ++ natDigits folioId := by
  simp [branchName, String.data_append]

/-- C8: for every folio id n, the draft branch name is the reserved
namespace `drafts/` followed by the decimal rendering of n, parsing
that name recovers exactly n, and any name that does not fully match
the pattern `drafts/(\d+)` parses to no folio. -/
theorem branch_name_roundtrip :
    (∀ folioId : Nat, branchParse (branchName folioId) = some folioId) ∧
      (∀ s : String, ¬ matchesDraftPattern s → branchParse s = none) := by
  constructor
  · intro folioId
    have hdata := branchName_data folioId
    have htake : (branchName folioId).data.take 7 = "drafts/".data := by
      rw [hdata]
      simp
    have hdrop : (branchName folioId).data.drop 7 = natDigits folioId := by
      rw [hdata]
      simp
    have hmatch : matchesDraftPattern (branchName folioId) := by
      refine ⟨htake, ?_, ?_⟩
      · rw [hdrop]
        exact natDigitsGo_ne_nil _ _ (Nat.succ_pos _)
      · rw [hdrop]
        exact natDigitsGo_all_digits _ _
    simp [branchParse, hmatch, hdrop, digitsToNat_natDigits]
  · intro s hs
    simp [branchParse, hs]

/-- Witness for C8 at concrete inputs. -/
theorem branch_name_roundtrip_witness :
    branchParse (branchName 42) = some 42 ∧ branchParse "main" = none :=
  ⟨branch_name_roundtrip.1 42, branch_name_roundtrip.2 "main" (by decide)⟩

/-- C5 counterexample: the claim fails as stated.  First, the raised
error does not carry the command: two calls with different commands but
the same observed exit code and stderr produce identical errors, so the
command is not recoverable from a VcsCommandError.  Second, with an
empty accepted-exit-code set the observed code 5 is not in the set and
yet no error is raised. -/
theorem gitCallSync_counterexample :
    gitCallSync ["status"] [0] 1 "" "boom"
        = gitCallSync ["commit", "-m", "x"] [0] 1 "" "boom" ∧
      (∃ e, gitCallSync ["status"] [0] 1 "" "boom" = .error e) ∧
      gitCallSync ["status"] [] 5 "out" "err" = .ok ⟨5, "out", "err"⟩ := by
  exact ⟨rfl, ⟨_, rfl⟩, by decide⟩

/-- C5 amended: with a non-empty accepted-exit-code set, the call fails
with a VcsCommandError carrying the exit code and the stderr (but not
the command) exactly when the observed exit code is not in the set;
with an empty accepted set every exit code is let through; on success
it returns the exit code together with stdout and stderr trimmed of
trailing whitespace. -/
theorem gitCallSync_spec (args : List String) (expectCodes : List Int)
    (code : Int) (stdout stderr : String) :
    (expectCodes ≠ [] → code ∉ expectCodes →
        gitCallSync args expectCodes code stdout stderr
          = .error ⟨"Git command failed with code " ++ toString code
              ++ ": " ++ stderr⟩) ∧
      (code ∈ expectCodes ∨ expectCodes = [] →
        gitCallSync args expectCodes code stdout stderr
          = .ok ⟨code, rstrip stdout, rstrip stderr⟩) := by
  constructor
  · intro hne hnotin
    simp [gitCallSync, hne, hnotin]
  · intro h
    rcases h with h | h
    · simp [gitCallSync, h]
    · simp [gitCallSync, h]

/-- Witness for C5 at concrete inputs. -/
theorem gitCallSync_spec_witness :
    gitCallSync ["status"] [0] 2 "a" "b \n"
        = .error ⟨"Git command failed with code 2: b \n"⟩ ∧
      gitCallSync ["status"] [0, 1] 1 "out \n" "e\t"
        = .ok ⟨1, "out", "e"⟩ := by
  constructor
  · exact (gitCallSync_spec ["status"] [0] 2 "a" "b \n").1
      (by decide) (by decide)
  · have h := (gitCallSync_spec ["status"] [0, 1] 1 "out \n" "e\t").2
      (Or.inl (by decide))
    rw [h]
    rfl

theorem mem_changedKeys (t₁ t₂ : GitTree) (k : String) :
    k ∈ changedKeys t₁ t₂ ↔ alGet t₁ k ≠ alGet t₂ k := by
  constructor
  · intro h
    simp [changedKeys, List.mem_filter] at h
    exact h.2
  · intro h
    have hmem : k ∈ t₁.map Prod.fst ++ t₂.map Prod.fst := by
      by_cases h₁ : alGet t₁ k = none
      · have h₂ : alGet t₂ k ≠ none := by
          intro h₂; exact h (h₁.trans h₂.symm)
        exact List.mem_append.mpr (Or.inr (alGet_mem_keys t₂ k h₂))
      · exact List.mem_append.mpr (Or.inl (alGet_mem_keys t₁ k h₁))
    refine List.mem_filter.mpr ⟨List.mem_dedup.mpr hmem, ?_⟩
    simpa using h

theorem changedKeys_nil_iff (t₁ t₂ : GitTree) :
    changedKeys t₁ t₂ = [] ↔ ∀ k, alGet t₁ k = alGet t₂ k := by
  constructor
  · intro h k
    by_contra hne
    have := (mem_changedKeys t₁ t₂ k).mpr hne
    simp [h] at this
  · intro h
    by_contra hne
    obtain ⟨k, hk⟩ := List.exists_mem_of_ne_nil _ hne
    exact (mem_changedKeys t₁ t₂ k).mp hk (h k)

theorem renderPatch_loop_length (l : List String) (acc : String) :
    acc.length + 5 * l.length ≤
      (l.foldl (fun acc k => acc ++ "--- " ++ k ++ "\n") acc).length := by
  induction l generalizing acc with
  | nil => simp
  | cons k rest ih =>
    have h := ih (acc ++ "--- " ++ k ++ "\n")
    have h4 : ("--- " : String).length = 4 := rfl
    have h1 : ("\n" : String).length = 1 := rfl
    simp [String.length_append, h4, h1] at h ⊢
    omega

theorem renderPatch_eq_empty_iff (t₁ t₂ : GitTree) :
    renderPatch t₁ t₂ = "" ↔ changedKeys t₁ t₂ = [] := by
  constructor
  · intro h
    by_contra hne
    have hlen := renderPatch_loop_length (changedKeys t₁ t₂) ""
    rw [← renderPatch, h] at hlen
    have h0 : 5 * (changedKeys t₁ t₂).length ≤ 0 := by simpa using hlen
    have hpos : 0 < (changedKeys t₁ t₂).length := List.length_pos.mpr hne
    omega
  · intro h
    simp [renderPatch, h]

theorem dropWhile_head_false {α : Type} (p : α → Bool) (l : List α)
    (x : α) (cs : List α) (h : l.dropWhile p = x :: cs) : p x = false := by
  induction l generalizing x cs with
  | nil => simp [List.dropWhile] at h
  | cons a rest ih =>
    by_cases hp : p a
    · simp only [List.dropWhile, hp] at h
      exact ih x cs h
    · simp only [List.dropWhile, Bool.not_eq_true] at hp
      simp only [List.dropWhile, hp] at h
      obtain ⟨rfl, -⟩ := List.cons.inj h
      exact hp

theorem wordsGo_sound (fuel : Nat) (l : List Char) :
    ∀ w ∈ wordsGo fuel l, w ≠ [] ∧ ∀ c ∈ w, c.isWhitespace = false := by
  induction fuel generalizing l with
  | zero => simp [wordsGo]
  | succ fuel ih =>
    intro w hw
    rw [wordsGo] at hw
    rcases hdrop : l.dropWhile Char.isWhitespace with _ | ⟨c, cs⟩
    · rw [hdrop] at hw
      simp at hw
    · rw [hdrop] at hw
      rcases List.mem_cons.mp hw with hw | hw
      · subst hw
        refine ⟨by simp, ?_⟩
        intro x hx
        rcases List.mem_cons.mp hx with hx | hx
        · rw [hx]
          exact dropWhile_head_false Char.isWhitespace l c cs hdrop
        · have := List.mem_takeWhile_imp hx
          simpa using this
      · exact ih _ w hw

theorem joinTail_chars (ws : List String) (c : Char)
    (h : c ∈ (joinTail ws).data) :
    (∃ w ∈ ws, c ∈ w.data) ∨ c = ' ' := by
  induction ws with
  | nil => simp [joinTail] at h
  | cons w rest ih =>
    simp only [joinTail, String.data_append] at h
    rcases List.mem_append.mp h with h | h
    · rcases List.mem_append.mp h with h | h
      · right
        simpa using h
      · left
        exact ⟨w, by simp, h⟩
    · rcases ih h with ⟨w', hw', hc⟩ | hsp
      · exact Or.inl ⟨w', by simp [hw'], hc⟩
      · exact Or.inr hsp

theorem joinWords_chars (ws : List String) (c : Char)
    (h : c ∈ (joinWords ws).data) :
    (∃ w ∈ ws, c ∈ w.data) ∨ c = ' ' := by
  cases ws with
  | nil => simp [joinWords] at h
  | cons w rest =>
    simp only [joinWords, String.data_append] at h
    rcases List.mem_append.mp h with h | h
    · exact Or.inl ⟨w, by simp, h⟩
    · rcases joinTail_chars rest c h with ⟨w', hw', hc⟩ | hsp
      · exact Or.inl ⟨w', by simp [hw'], hc⟩
      · exact Or.inr hsp

theorem greedyTail_subset (budget : Nat) (ws : List String) :
    ∀ w ∈ greedyTail budget ws, w ∈ ws := by
  induction ws generalizing budget with
  | nil => simp [greedyTail]
  | cons w rest ih =>
    intro x hx
    rw [greedyTail] at hx
    by_cases hfit : w.length + 1 ≤ budget
    · rw [if_pos hfit] at hx
      rcases List.mem_cons.mp hx with hx | hx
      · simp [hx]
      · exact List.mem_cons.mpr (Or.inr (ih _ x hx))
    · rw [if_neg hfit] at hx
      simp at hx

theorem greedyWords_subset (budget : Nat) (ws : List String) :
    ∀ w ∈ greedyWords budget ws, w ∈ ws := by
  cases ws with
  | nil => simp [greedyWords]
  | cons w rest =>
    intro x hx
    rw [greedyWords] at hx
    by_cases hfit : w.length ≤ budget
    · rw [if_pos hfit] at hx
      rcases List.mem_cons.mp hx with hx | hx
      · simp [hx]
      · exact List.mem_cons.mpr (Or.inr (greedyTail_subset _ rest x hx))
    · rw [if_neg hfit] at hx
      simp at hx

theorem joinTail_greedyTail_length (ws : List String) (budget : Nat) :
    (joinTail (greedyTail budget ws)).length ≤ budget := by
  induction ws generalizing budget with
  | nil => simp [greedyTail, joinTail]
  | cons w rest ih =>
    rw [greedyTail]
    by_cases hfit : w.length + 1 ≤ budget
    · rw [if_pos hfit]
      have h := ih (budget - (w.length + 1))
      have hsp : (" " : String).length = 1 := rfl
      simp [joinTail, String.length_append, hsp]
      omega
    · rw [if_neg hfit]
      simp [joinTail]

theorem joinWords_greedyWords_length (ws : List String) (budget : Nat) :
    (joinWords (greedyWords budget ws)).length ≤ budget := by
  cases ws with
  | nil => simp [greedyWords, joinWords]
  | cons w rest =>
    rw [greedyWords]
    by_cases hfit : w.length ≤ budget
    · rw [if_pos hfit]
      have h := joinTail_greedyTail_length rest (budget - w.length)
      simp [joinWords, String.length_append]
      omega
    · rw [if_neg hfit]
      simp [joinWords]

theorem wordsOf_chars (s : String) (w : String) (hw : w ∈ wordsOf s) :
    ∀ c ∈ w.data, c.isWhitespace = false := by
  simp only [wordsOf, List.mem_map] at hw
  obtain ⟨l, hl, rfl⟩ := hw
  intro c hc
  exact (wordsGo_sound _ _ l hl).2 c hc

theorem textwrapShorten_no_newline (width : Nat) (s : String) :
    ∀ c ∈ (textwrapShorten width s).data, c ≠ '\n' := by
  intro c hc
  rw [textwrapShorten] at hc
  by_cases hfit : (joinWords (wordsOf s)).length ≤ width
  · rw [if_pos hfit] at hc
    rcases joinWords_chars _ c hc with ⟨w, hw, hcw⟩ | hsp
    · intro heq
      have := wordsOf_chars s w hw c hcw
      rw [heq] at this
      simp at this
    · simp [hsp]
  · rw [if_neg hfit] at hc
    by_cases hk : (greedyWords (width - (" [...]" : String).length)
        (wordsOf s)).isEmpty
    · rw [if_pos hk] at hc
      intro heq
      rw [heq] at hc
      simp at hc
    · rw [if_neg hk] at hc
      rw [String.data_append] at hc
      rcases List.mem_append.mp hc with hc | hc
      · rcases joinWords_chars _ c hc with ⟨w, hw, hcw⟩ | hsp
        · intro heq
          have hmem := greedyWords_subset _ _ w hw
          have := wordsOf_chars s w hmem c hcw
          rw [heq] at this
          simp at this
        · simp [hsp]
      · intro heq
        rw [heq] at hc
        simp at hc

theorem defaultTitle_length (prompt : String)
    (h : ¬ (joinWords (wordsOf prompt)).length ≤ 72) :
    (defaultTitle prompt).length ≤ 72 := by
  rw [defaultTitle, textwrapShorten, if_neg h]
  by_cases hk : (greedyWords (72 - (" [...]" : String).length)
      (wordsOf prompt)).isEmpty
  · rw [if_pos hk]
    decide
  · rw [if_neg hk]
    have hlen := joinWords_greedyWords_length (wordsOf prompt)
      (72 - (" [...]" : String).length)
    have h6 : (" [...]" : String).length = 6 := rfl
    rw [String.length_append, h6]
    rw [h6] at hlen
    omega

theorem defaultTitle_length_le (prompt : String) :
    (defaultTitle prompt).length ≤ 72 := by
  by_cases hfit : (joinWords (wordsOf prompt)).length ≤ 72
  · rw [defaultTitle, textwrapShorten, if_pos hfit]
    exact hfit
  · exact defaultTitle_length prompt hfit

theorem defaultTitle_no_newline (prompt : String) :
    ∀ c ∈ (defaultTitle prompt).data, c ≠ '\n' :=
  textwrapShorten_no_newline 72 prompt

/-! ## Claim theorems -/

/-- C10: for every call to generate_draft with a non-None timeout
argument, the call fails with NotImplementedError immediately: the
result is this error for every repository and store state, every other
argument, and no state is inspected or mutated (the check is the first
statement of the function, drafter.py lines 117-118). -/
theorem generateDraft_timeout_unsupported (st : DrafterState)
    (prompt : String) (ops : List BotOp) (botTitle : Option String)
    (accept : Accept) (promptTransform : Option (String → String))
    (reset : Bool) (t : Rat) (applyOut : ApplyOutcome) :
    generateDraft st prompt ops botTitle accept promptTransform reset
      (some t) applyOut = .error .notImplementedTimeout := by
  rw [generateDraft]
  rfl

/-- C2: if the three-way apply reports residual conflict markers
(git's "with conflicts" message on stderr), `_Delta.apply` raises
ConflictError and the repository keeps the tree the apply produced —
applied non-conflicting files are not rolled back; any other non-zero
apply outcome raises the generic apply failure, which is a distinct
error from ConflictError (drafter.py lines 354-365). -/
theorem deltaApply_conflict_spec (st : RepoState) (out : ApplyOutcome) :
    (strContains out.stderr "with conflicts" = true →
      (deltaApply st out).2 = some .conflict ∧
        (deltaApply st out).1.worktree = out.tree) ∧
      (strContains out.stderr "with conflicts" = false → out.code ≠ 0 →
        (deltaApply st out).2 = some .applyFailed ∧
          (deltaApply st out).1.worktree = out.tree ∧
          DraftError.applyFailed ≠ DraftError.conflict) := by
  constructor
  · intro hc
    simp [deltaApply, hc]
  · intro hc hcode
    simp [deltaApply, hc, hcode]

/-- Witness for C2: a conflicting apply outcome raises ConflictError
keeping the applied tree, and a failed non-conflicting outcome raises
the distinct generic failure. -/
theorem deltaApply_conflict_spec_witness :
    (deltaApply
          ⟨[], [], .detached 0, [], [], [], 1⟩
          ⟨1, "Applied patch to p1 with conflicts.", [("p1", "<<<")]⟩).2
        = some .conflict ∧
      (deltaApply
          ⟨[], [], .detached 0, [], [], [], 1⟩
          ⟨128, "fatal: bad patch", []⟩).2 = some .applyFailed := by
  constructor
  · exact ((deltaApply_conflict_spec
      ⟨[], [], .detached 0, [], [], [], 1⟩
      ⟨1, "Applied patch to p1 with conflicts.", [("p1", "<<<")]⟩).1
        (by decide)).1
  · exact (((deltaApply_conflict_spec
      ⟨[], [], .detached 0, [], [], [], 1⟩
      ⟨128, "fatal: bad patch", []⟩).2
        (by decide) (by decide)).1)

/-- C4: for a generated commit with a parent, `_Change.delta` returns
no delta exactly when the patch between the commit and its parent is
empty — equivalently, when the two trees agree on every path — and any
returned delta has a non-empty patch text (drafter.py lines 342-344). -/
theorem changeDelta_absent_iff_empty (st : RepoState) (sha : Nat)
    (cd : CommitData) (p : Nat)
    (hsha : alGet st.commits sha = some cd) (hp : cd.parent = some p) :
    (changeDelta st sha = .ok none ↔
        ∀ k, alGet (shaTreeD st p) k = alGet cd.tree k) ∧
      ∀ d, changeDelta st sha = .ok (some d) → d ≠ "" := by
  constructor
  · simp only [changeDelta, hsha, hp]
    by_cases hd : renderPatch (shaTreeD st p) cd.tree = ""
    · simp only [hd, if_pos rfl]
      constructor
      · intro _
        exact (changedKeys_nil_iff _ _).mp
          ((renderPatch_eq_empty_iff _ _).mp hd)
      · intro _
        rfl
    · simp only [if_neg hd]
      constructor
      · intro h
        simp at h
      · intro hall
        exact absurd
          ((renderPatch_eq_empty_iff _ _).mpr
            ((changedKeys_nil_iff _ _).mpr hall)) hd
  · intro d hd
    simp only [changeDelta, hsha, hp] at hd
    by_cases he : renderPatch (shaTreeD st p) cd.tree = ""
    · rw [if_pos he] at hd
      simp at hd
    · rw [if_neg he] at hd
      simp at hd
      rw [← hd]
      exact he

/-- Witness for C4: a commit identical to its parent yields no delta,
and a differing commit yields a delta with non-empty patch text. -/
theorem changeDelta_absent_iff_empty_witness :
    changeDelta
        ⟨[(1, ⟨"m", some 0, [("a", "x")]⟩), (0, ⟨"i", none, [("a", "x")]⟩)],
          [], .detached 1, [], [], [], 2⟩ 1 = .ok none ∧
      ∀ d, changeDelta
          ⟨[(1, ⟨"m", some 0, [("a", "y")]⟩), (0, ⟨"i", none, [("a", "x")]⟩)],
            [], .detached 1, [], [], [], 2⟩ 1 = .ok (some d) → d ≠ "" := by
  constructor
  · exact (changeDelta_absent_iff_empty _ 1 ⟨"m", some 0, [("a", "x")]⟩ 0
      (by decide) rfl).1.mpr (fun k => rfl)
  · exact (changeDelta_absent_iff_empty _ 1 ⟨"m", some 0, [("a", "y")]⟩ 0
      (by decide) rfl).2

/-- C9: for every path that is not currently present, delete_file
succeeds as a no-op rather than raising, under both the index-only and
the materialized-worktree mutation strategies. -/
theorem deleteFile_missing_noop (index : GitTree) (w : WorktreeState)
    (p q : String) (hp : alGet index p = none)
    (hq : alGet w.overlay q = none) :
    stagingDeleteFile index p = .ok index ∧
      worktreeDeleteFile w q = .ok w := by
  constructor
  · simp [stagingDeleteFile, hp]
  · simp [worktreeDeleteFile, hq]

/-- Witness for C9 at concrete inputs. -/
theorem deleteFile_missing_noop_witness :
    stagingDeleteFile [("kept", "v")] "absent" = .ok [("kept", "v")] ∧
      worktreeDeleteFile ⟨[("kept", "v")], false⟩ "absent"
        = .ok ⟨[("kept", "v")], false⟩ :=
  deleteFile_missing_noop [("kept", "v")] ⟨[("kept", "v")], false⟩
    "absent" "absent" (by decide) (by decide)

theorem headSha_set_index (st : RepoState) (t : GitTree) :
    headSha { st with index := t } = headSha st := by
  cases h : st.head <;> simp [headSha, h]

theorem message_split (t p : String) (h : ∀ c ∈ t.data, c ≠ '\n') :
    firstLine (t ++ "\n\n" ++ p) = t ∧ messageBody (t ++ "\n\n" ++ p) = p := by
  have hdata : (t ++ "\n\n" ++ p).data = t.data ++ ('\n' :: '\n' :: p.data) := by
    rw [String.data_append, String.data_append, List.append_assoc]
    rfl
  have hall : ∀ c ∈ t.data, (c != '\n') = true := by
    intro c hc
    simpa using h c hc
  constructor
  · rw [firstLine, hdata, List.takeWhile_append]
    rw [if_pos]
    · have hrest : List.takeWhile (fun c => c != '\n')
          ('\n' :: '\n' :: p.data) = [] := by
        simp [List.takeWhile]
      rw [hrest, List.append_nil]
    · rw [List.takeWhile_eq_self_iff.mpr hall]
  · rw [messageBody, hdata, List.dropWhile_append]
    have hnil : List.dropWhile (fun c => c != '\n') t.data = [] :=
      List.dropWhile_eq_nil_iff.mpr hall
    rw [hnil]
    simp [List.dropWhile]

/-- C7: every draft commit created by generateDraft (through
`_generate_change`, drafter.py lines 207-234) carries the message
`draft! <title>` followed by a blank line and the full prompt text,
where the title is the bot-supplied title when a non-empty one is
returned and otherwise the prompt shortened to at most 72 characters;
when the title contains no newline the message's first line is exactly
`draft! <title>` and its body is exactly the prompt. -/
theorem generateChange_commit_message (st : RepoState) (ops : List BotOp)
    (botTitle : Option String) (prompt : String) :
    alGet (generateChange st ops botTitle prompt).1.commits
        (generateChange st ops botTitle prompt).2 =
      some ⟨"draft! " ++ effectiveTitle botTitle prompt ++ "\n\n" ++ prompt,
        headSha st, applyBotOps st.index ops⟩ ∧
      ((∀ c ∈ (effectiveTitle botTitle prompt).data, c ≠ '\n') →
        firstLine ("draft! " ++ effectiveTitle botTitle prompt
            ++ "\n\n" ++ prompt)
          = "draft! " ++ effectiveTitle botTitle prompt ∧
        messageBody ("draft! " ++ effectiveTitle botTitle prompt
            ++ "\n\n" ++ prompt) = prompt) ∧
      (botTitle = none →
        effectiveTitle botTitle prompt = defaultTitle prompt ∧
          (effectiveTitle botTitle prompt).length ≤ 72 ∧
          ∀ c ∈ (effectiveTitle botTitle prompt).data, c ≠ '\n') := by
  refine ⟨?_, ?_, ?_⟩
  · simp [generateChange, createCommit, alGet, headSha_set_index]
  · intro hno
    have happ : "draft! " ++ effectiveTitle botTitle prompt
        ++ "\n\n" ++ prompt
        = ("draft! " ++ effectiveTitle botTitle prompt)
          ++ "\n\n" ++ prompt := by
      simp [String.append_assoc]
    rw [happ]
    refine message_split ("draft! " ++ effectiveTitle botTitle prompt)
      prompt ?_
    intro c hc
    rw [String.data_append] at hc
    rcases List.mem_append.mp hc with hc | hc
    · intro heq
      rw [heq] at hc
      simp at hc
    · exact hno c hc
  · intro hnone
    subst hnone
    refine ⟨rfl, ?_, ?_⟩
    · exact defaultTitle_length_le prompt
    · exact defaultTitle_no_newline prompt

/-- Witness for C7: a bot-supplied title and a defaulted title at
concrete inputs. -/
theorem generateChange_commit_message_witness :
    firstLine ("draft! " ++ effectiveTitle (some "Add tests") "do it"
        ++ "\n\n" ++ "do it")
      = "draft! " ++ effectiveTitle (some "Add tests") "do it" ∧
      effectiveTitle none "do it" = defaultTitle "do it" := by
  constructor
  · exact ((generateChange_commit_message
      ⟨[], [], .detached 0, [], [], [], 1⟩ [] (some "Add tests")
      "do it").2.1 (by decide)).1
  · exact ((generateChange_commit_message
      ⟨[], [], .detached 0, [], [], [], 1⟩ [] none "do it").2.2 rfl).1

theorem createCommit_index (st : RepoState) (m : String) :
    (createCommit st m).1.index = st.index := by
  rfl

theorem headTree_createCommit (st : RepoState) (m : String) :
    headTree (createCommit st m).1 = st.index := by
  cases h : st.head with
  | branch n =>
    simp [createCommit, headTree, headSha, h, alGet, alGet_alSet, shaTreeD]
  | detached s =>
    simp [createCommit, headTree, headSha, h, alGet, shaTreeD]

/-- After `_stage_changes` the staging area agrees with HEAD: either
nothing was staged, or the staged state was just committed as the sync
commit. -/
theorem stageChanges_index_sync (st : RepoState) :
    ∀ k, alGet (stageChanges st).1.index k =
      alGet (headTree (stageChanges st).1) k := by
  intro k
  rw [stageChanges]
  by_cases h : hasStagedChanges (gitAddAll st) = true
  · simp only [h, if_pos]
    rw [headTree_createCommit, createCommit_index]
  · simp only [Bool.not_eq_true] at h
    simp only [h, Bool.false_eq_true, if_false]
    have hempty : changedKeys (gitAddAll st).index (headTree (gitAddAll st))
        = [] := by
      rw [hasStagedChanges] at h
      simpa using h
    exact (changedKeys_nil_iff _ _).mp hempty k

theorem applyBotOps_untouched (ops : List BotOp) (t : GitTree) (k : String)
    (h : k ∉ botPaths ops) : alGet (applyBotOps t ops) k = alGet t k := by
  induction ops generalizing t with
  | nil => rfl
  | cons op rest ih =>
    have hstep : applyBotOps t (op :: rest)
        = applyBotOps (applyBotOp t op) rest := rfl
    simp only [botPaths, List.map_cons, List.mem_cons] at h
    push_neg at h
    have h2 : k ∉ botPaths rest := by
      rw [botPaths]
      exact h.2
    cases op with
    | write p c =>
      have hpk : ¬ p = k := by
        intro hc
        exact h.1 (by rw [hc]; rfl)
      rw [hstep, ih _ h2]
      simp [applyBotOp, alGet_alSet, hpk]
    | delete p =>
      have hpk : ¬ p = k := by
        intro hc
        exact h.1 (by rw [hc]; rfl)
      by_cases hp : (alGet t p).isSome
      · rw [hstep, ih _ h2]
        simp [applyBotOp, hp, alGet_alErase, hpk]
      · rw [hstep, ih _ h2]
        simp [applyBotOp, hp]

/-- C3 amended: the changed-file set of the draft commit (the diff
between the generated commit's tree and its parent, the post-sync
HEAD) consists of exactly those paths the Bot wrote or deleted whose
staged content actually changed; in particular it is a subset of the
paths the Bot wrote or deleted, so working-tree files that were dirty
before the call but untouched by the Bot never appear — they are
captured in the separate `draft! sync` commit, whose tree snapshots
the pre-call working tree (drafter.py lines 207-234 and 283-287). -/
theorem draft_commit_changed_file_set (st : RepoState) (ops : List BotOp)
    (botTitle : Option String) (prompt : String) :
    (∀ k, k ∈ changedKeys (headTree (stageChanges st).1)
          (applyBotOps (stageChanges st).1.index ops) ↔
        (k ∈ botPaths ops ∧
          alGet (applyBotOps (stageChanges st).1.index ops) k ≠
            alGet (stageChanges st).1.index k)) ∧
      (∀ k, k ∉ botPaths ops →
        k ∉ changedKeys (headTree (stageChanges st).1)
          (applyBotOps (stageChanges st).1.index ops)) ∧
      (alGet (generateChange (stageChanges st).1 ops botTitle prompt).1.commits
          (generateChange (stageChanges st).1 ops botTitle prompt).2
        = some ⟨"draft! " ++ effectiveTitle botTitle prompt
              ++ "\n\n" ++ prompt,
            headSha (stageChanges st).1,
            applyBotOps (stageChanges st).1.index ops⟩) ∧
      (∀ s, (stageChanges st).2 = some s →
        alGet (stageChanges st).1.commits s
          = some ⟨"draft! sync", headSha (gitAddAll st), st.worktree⟩) := by
  have hsync := stageChanges_index_sync st
  have hmem : ∀ k, k ∈ changedKeys (headTree (stageChanges st).1)
      (applyBotOps (stageChanges st).1.index ops) ↔
        alGet (applyBotOps (stageChanges st).1.index ops) k ≠
          alGet (stageChanges st).1.index k := by
    intro k
    rw [mem_changedKeys, ← hsync k]
    exact ne_comm
  refine ⟨?_, ?_, ?_, ?_⟩
  · intro k
    rw [hmem k]
    constructor
    · intro h
      refine ⟨?_, h⟩
      by_contra hnot
      exact h (applyBotOps_untouched ops _ k hnot)
    · intro h
      exact h.2
  · intro k hk
    rw [hmem k]
    simp only [ne_eq, not_not]
    exact applyBotOps_untouched ops _ k hk
  · simp [generateChange, createCommit, alGet, headSha_set_index]
  · intro s hs
    rw [stageChanges] at hs ⊢
    by_cases h : hasStagedChanges (gitAddAll st) = true
    · simp only [h, if_pos] at hs ⊢
      have hs' : (gitAddAll st).nextSha = s := by
        simpa [createCommit] using hs
      subst hs'
      simp [createCommit, alGet]
      rfl
    · simp only [Bool.not_eq_true] at h
      simp only [h, Bool.false_eq_true, if_false] at hs
      simp at hs

/-- Witness for C3 at a concrete input: a file dirty before the call
and untouched by the Bot does not appear in the draft commit's
changed-file set. -/
theorem draft_commit_changed_file_set_witness :
    "dirty" ∉ changedKeys
        (headTree (stageChanges
          ⟨[(0, ⟨"i", none, [("p1", "a"), ("dirty", "d")]⟩)],
            [("main", 0)], .branch "main", [("p1", "a"), ("dirty", "d")],
            [("p1", "a"), ("dirty", "d2")], [], 1⟩).1)
        (applyBotOps (stageChanges
          ⟨[(0, ⟨"i", none, [("p1", "a"), ("dirty", "d")]⟩)],
            [("main", 0)], .branch "main", [("p1", "a"), ("dirty", "d")],
            [("p1", "a"), ("dirty", "d2")], [], 1⟩).1.index
          [.write "p1" "b"]) :=
  (draft_commit_changed_file_set
    ⟨[(0, ⟨"i", none, [("p1", "a"), ("dirty", "d")]⟩)],
      [("main", 0)], .branch "main", [("p1", "a"), ("dirty", "d")],
      [("p1", "a"), ("dirty", "d2")], [], 1⟩
    [.write "p1" "b"] none "p").2.1 "dirty" (by decide)

/-- C3 counterexample: the claim's exact equality fails.  A Bot that
writes a file with the content it already has produces a draft commit
whose changed-file set is empty, not the written path's singleton: the
full generateDraft run succeeds and the draft commit (id 1, parent 0)
has an empty diff while the Bot wrote ["p1"]. -/
theorem draft_commit_changed_file_set_counterexample :
    ((generateDraft
          ⟨⟨[(0, ⟨"init", none, [("p1", "a")]⟩)], [("main", 0)],
              .branch "main", [("p1", "a")], [("p1", "a")], [], 1⟩,
            ⟨[], 1, []⟩⟩
          "hi" [.write "p1" "a"] none .manual none false none
          ⟨0, "", []⟩).map
        (fun r => (changedKeys (shaTreeD r.1.repo 0) (shaTreeD r.1.repo 1),
          r.2)))
      = .ok ([], 1, 1) ∧
      botPaths [.write "p1" "a"] = ["p1"] := by
  constructor
  · decide
  · decide

/-- C6: once a folio has been finalized — the repository is back on its
origin branch, whose name is not in the draft namespace — a second call
to finalize_folio fails with the deliberate NotOnDraftBranchError
(RuntimeError "Not currently on a draft branch", drafter.py lines
236-239), not a crash and not a silent success. -/
theorem finalizeFolio_second_call_fails (st st' : DrafterState)
    (folioId : Nat) (ob : String) (os : Nat)
    (hok : finalizeFolio st = .ok (st', folioId))
    (hfol : alGet st.store.folios folioId = some (ob, os))
    (hnd : branchParse ob = none) :
    st'.repo.head = .branch ob ∧
      finalizeFolio st' = .error .notOnDraftBranch := by
  rw [finalizeFolio] at hok
  cases hba : branchActive st.repo with
  | none =>
    rw [hba] at hok
    exact absurd hok (by simp)
  | some fid =>
    rw [hba] at hok
    simp only at hok
    cases hlk : alGet st.store.folios fid with
    | none =>
      rw [hlk] at hok
      exact absurd hok (by simp)
    | some pr =>
      obtain ⟨ob', os'⟩ := pr
      rw [hlk] at hok
      simp only at hok
      cases hcd : checkoutDetach (stageChanges st.repo).1 with
      | error e =>
        rw [hcd] at hok
        exact absurd hok (by simp)
      | ok repo₂ =>
        rw [hcd] at hok
        simp only at hok
        cases hrs : resetKeepWorktree repo₂ ob' with
        | error e =>
          rw [hrs] at hok
          exact absurd hok (by simp)
        | ok repo₃ =>
          rw [hrs] at hok
          simp only at hok
          cases hcb : checkoutBranch repo₃ ob' with
          | error e =>
            rw [hcb] at hok
            exact absurd hok (by simp)
          | ok repo₄ =>
            rw [hcb] at hok
            simp only at hok
            cases hdb : deleteBranchForce repo₄ (branchName fid) with
            | error e =>
              rw [hdb] at hok
              exact absurd hok (by simp)
            | ok repo₅ =>
              rw [hdb] at hok
              simp only at hok
              have hpair := Except.ok.inj hok
              obtain ⟨hst, hfid⟩ := Prod.mk.inj hpair.symm
              subst hfid
              rw [hfol] at hlk
              obtain ⟨hob, -⟩ := Prod.mk.inj (Option.some.inj hlk)
              subst hob
              have hhead₄ : repo₄.head = .branch ob := by
                rw [checkoutBranch] at hcb
                cases halk : alGet repo₃.branches ob with
                | none =>
                  rw [halk] at hcb
                  exact absurd hcb (by simp)
                | some sha =>
                  rw [halk] at hcb
                  simp only at hcb
                  have := Except.ok.inj hcb
                  rw [← this]
              have hhead₅ : repo₅.head = .branch ob := by
                rw [deleteBranchForce] at hdb
                by_cases hif : repo₄.head = .branch (branchName folioId)
                · rw [if_pos hif] at hdb
                  exact absurd hdb (by simp)
                · rw [if_neg hif] at hdb
                  cases halk : alGet repo₄.branches (branchName folioId) with
                  | none =>
                    rw [halk] at hdb
                    exact absurd hdb (by simp)
                  | some sha =>
                    rw [halk] at hdb
                    have := Except.ok.inj hdb
                    rw [← this, hhead₄]
              have hhead : st'.repo.head = .branch ob := by
                rw [hst]
                exact hhead₅
              refine ⟨hhead, ?_⟩
              have hact : branchActive st'.repo = none := by
                rw [branchActive, activeBranch, hhead]
                simpa using hnd
              rw [finalizeFolio, hact]

/-- Witness for C6: finalizing a concrete folio succeeds and returns to
the origin branch, after which a second finalize fails with
NotOnDraftBranchError. -/
theorem finalizeFolio_second_call_fails_witness :
    finalizeFolio
        ⟨⟨[(1, ⟨"draft", some 0, [("f", "b")]⟩),
              (0, ⟨"init", none, [("f", "a")]⟩)],
            [("main", 0)], .branch "main", [("f", "a")], [("f", "b")],
            [], 2⟩,
          ⟨[(1, ("main", 0))], 2, []⟩⟩
      = .error .notOnDraftBranch :=
  (finalizeFolio_second_call_fails
    ⟨⟨[(1, ⟨"draft", some 0, [("f", "b")]⟩),
          (0, ⟨"init", none, [("f", "a")]⟩)],
        [("main", 0), ("drafts/1", 1)], .branch "drafts/1", [("f", "b")],
        [("f", "b")], [], 2⟩,
      ⟨[(1, ("main", 0))], 2, []⟩⟩
    ⟨⟨[(1, ⟨"draft", some 0, [("f", "b")]⟩),
          (0, ⟨"init", none, [("f", "a")]⟩)],
        [("main", 0)], .branch "main", [("f", "a")], [("f", "b")],
        [], 2⟩,
      ⟨[(1, ("main", 0))], 2, []⟩⟩
    1 "main" 0 (by decide) (by decide) (by decide)).2

/-- C1: evaluation of the claim's failing input.  The folio's recorded
origin commit is 0, but the origin branch main has moved to commit 2;
the claim (and the spec's invariant) requires finalize_folio to fail
with StaleOriginError, yet the call proceeds: it returns the folio,
moves HEAD back to main and deletes the draft branch.  finalize_folio
binds the recorded origin commit but never compares it with the origin
branch's current commit (drafter.py lines 236-259). -/
theorem finalizeFolio_ignores_stale_origin :
    alGet
        (⟨⟨[(2, ⟨"moved", some 0, [("f", "b")]⟩),
              (1, ⟨"draft", some 0, [("f", "c")]⟩),
              (0, ⟨"init", none, [("f", "a")]⟩)],
            [("main", 2), ("drafts/1", 1)], .branch "drafts/1",
            [("f", "c")], [("f", "c")], [], 3⟩,
          ⟨[(1, ("main", 0))], 2, []⟩⟩ : DrafterState).store.folios 1
        = some ("main", 0) ∧
      alGet
        (⟨⟨[(2, ⟨"moved", some 0, [("f", "b")]⟩),
              (1, ⟨"draft", some 0, [("f", "c")]⟩),
              (0, ⟨"init", none, [("f", "a")]⟩)],
            [("main", 2), ("drafts/1", 1)], .branch "drafts/1",
            [("f", "c")], [("f", "c")], [], 3⟩,
          ⟨[(1, ("main", 0))], 2, []⟩⟩ : DrafterState).repo.branches "main"
        = some 2 ∧
      (2 : Nat) ≠ 0 ∧
      ((finalizeFolio
          ⟨⟨[(2, ⟨"moved", some 0, [("f", "b")]⟩),
                (1, ⟨"draft", some 0, [("f", "c")]⟩),
                (0, ⟨"init", none, [("f", "a")]⟩)],
              [("main", 2), ("drafts/1", 1)], .branch "drafts/1",
              [("f", "c")], [("f", "c")], [], 3⟩,
            ⟨[(1, ("main", 0))], 2, []⟩⟩).map
          (fun r => (r.1.repo.head, alGet r.1.repo.branches "drafts/1",
            r.2)))
        = .ok (.branch "main", none, 1) := by
  refine ⟨by decide, by decide, by decide, by decide⟩
